import Mathlib

/-!
Verification of the URL-validation, email-validation, header-sanitization and
LLM retry/backoff layer of the JobpowercraftAI repository.

Strings are embedded as `List Char` (one Python character per list element).
The functions below are shallow embeddings of:
  * `SecurityValidator.validate_email`  (src/security_utils.py)
  * `SecurityValidator.validate_job_url` (src/security_utils.py)
  * `EmailSender._sanitize_email_field`  (src/email_sender.py)
  * `LoggerChatModel.__call__`           (src/libs/llm_manager.py)
-/

namespace JobCraft

/-- Decidable equality for `Except`, used to evaluate the validators on
concrete inputs. -/
instance instDecEqExcept {ε α : Type} [DecidableEq ε] [DecidableEq α] :
    DecidableEq (Except ε α) := fun x y =>
  match x, y with
  | .ok a, .ok b => decidable_of_iff (a = b) (by simp)
  | .error a, .error b => decidable_of_iff (a = b) (by simp)
  | .ok _, .error _ => isFalse (by simp)
  | .error _, .ok _ => isFalse (by simp)

/-- ASCII whitespace stripped by Python's `str.strip()`:
space, tab, newline, carriage return, vertical tab, form feed. -/
def pyIsSpace (c : Char) : Bool :=
  c = ' ' || c = '\t' || c = '\n' || c = '\r' || c = Char.ofNat 11 || c = Char.ofNat 12

/-- Python `str.strip()`: drop leading and trailing whitespace. -/
def pyStrip (l : List Char) : List Char :=
  ((l.dropWhile pyIsSpace).reverse.dropWhile pyIsSpace).reverse

/-- Python `str.lower()` restricted to ASCII (all inputs of interest are ASCII). -/
def pyLower (c : Char) : Char := c.toLower

/-- Python's `in` operator on strings: `isSubstringOf pat l` is true iff `pat`
occurs contiguously inside `l`. -/
def isSubstringOf : List Char → List Char → Bool
  | pat, [] => pat.isEmpty
  | pat, c :: t => pat.isPrefixOf (c :: t) || isSubstringOf pat t

/- ### Email validation (`SecurityValidator.validate_email`) -/

/-- Character class `[a-zA-Z0-9._%+-]` (local part of `EMAIL_REGEX`). -/
def isLocalChar (c : Char) : Bool :=
  c.isAlphanum || c = '.' || c = '_' || c = '%' || c = '+' || c = '-'

/-- Character class `[a-zA-Z0-9.-]` (domain part of `EMAIL_REGEX`). -/
def isDomainChar (c : Char) : Bool :=
  c.isAlphanum || c = '.' || c = '-'

/-- Matcher for the tail `[a-zA-Z0-9.-]+\.[a-zA-Z]{2,}` of `EMAIL_REGEX`:
the part after the final `.` must be at least two letters, and a non-empty
run of domain characters must precede that final `.`. -/
def domainMatch (r : List Char) : Bool :=
  match r.reverse.dropWhile (fun c => c ≠ '.') with
  | '.' :: drev =>
      (!drev.isEmpty) && drev.all isDomainChar &&
      decide ((r.reverse.takeWhile (fun c => c ≠ '.')).length ≥ 2) &&
      (r.reverse.takeWhile (fun c => c ≠ '.')).all (fun c => c.isAlpha)
  | _ => false

/-- Full anchored match of `EMAIL_REGEX = ^[a-zA-Z0-9._%+-]+@[a-zA-Z0-9.-]+\.[a-zA-Z]{2,}$`
against the whole string: a non-empty local part, a single `@`, and a matching
domain tail. -/
def emailCoreMatch (s : List Char) : Bool :=
  match s.dropWhile (fun c => c ≠ '@') with
  | '@' :: r =>
      (!(s.takeWhile (fun c => c ≠ '@')).isEmpty) &&
      (s.takeWhile (fun c => c ≠ '@')).all isLocalChar &&
      domainMatch r
  | _ => false

/-- Python `re.match` semantics for an `$`-anchored pattern: `$` matches at the
end of the string or just before one trailing newline. -/
def emailRegexMatch (s : List Char) : Bool :=
  emailCoreMatch s || (s.getLast? = some '\n' && emailCoreMatch s.dropLast)

/-- The command-injection characters checked by `validate_email`
(`['|', ';', '&', '$', '`', '\n', '\r']`; `Char.ofNat 96` is the backquote). -/
def dangerousEmailChars : List Char :=
  ['|', ';', '&', '$', Char.ofNat 96, '\n', '\r']

/-- The distinct `ValueError`s `validate_email` can raise, named after the
spec's error taxonomy. -/
inductive EmailError where
  | emptyEmail
  | invalidFormat
  | tooLong
  | injectionChar
deriving DecidableEq, Repr

/-- Shallow embedding of `SecurityValidator.validate_email`:
reject empty input, strip, match `EMAIL_REGEX`, enforce the 320-character
limit, then check for command-injection characters. -/
def validateEmail (email : List Char) : Except EmailError Bool :=
  if email = [] then .error .emptyEmail
  else
    let e := pyStrip email
    if emailRegexMatch e = false then .error .invalidFormat
    else if e.length > 320 then .error .tooLong
    else if dangerousEmailChars.any (fun c => e.contains c) then .error .injectionChar
    else .ok true

/-- Whether a `validate_email` outcome is the injection-character error. -/
def injectionRaised : Except EmailError Bool → Bool
  | .error .injectionChar => true
  | _ => false

/- ### URL validation (`SecurityValidator.validate_job_url`) -/

/-- Characters allowed in a URL scheme by `urllib.parse`
(letters, digits, `+`, `-`, `.`). -/
def isSchemeChar (c : Char) : Bool :=
  c.isAlpha || c.isDigit || c = '+' || c = '-' || c = '.'

/-- The scheme and network-location components produced by
`urllib.parse.urlparse`. -/
structure UrlParts where
  scheme : List Char
  netloc : List Char
deriving DecidableEq, Repr

/-- Scheme splitting as in `urllib.parse.urlsplit`: if the text before the
first `:` is non-empty, starts with an ASCII letter and consists of scheme
characters, it is the (lowercased) scheme; otherwise the scheme is empty. -/
def splitScheme (url : List Char) : List Char × List Char :=
  let pre := url.takeWhile (fun c => c ≠ ':')
  match url.drop pre.length with
  | ':' :: rest =>
      if (!pre.isEmpty) && (pre.headD ' ').isAlpha && pre.all isSchemeChar then
        (pre.map pyLower, rest)
      else ([], url)
  | _ => ([], url)

/-- Network-location extraction as in `urllib.parse.urlsplit`: present only
after a leading `//`, extending to the first `/`, `?` or `#`; `none` models the
`ValueError` urlsplit raises on an unbalanced IPv6 bracket in the netloc. -/
def parseUrl (url : List Char) : Option UrlParts :=
  let (scheme, rest) := splitScheme url
  let netloc :=
    match rest with
    | '/' :: '/' :: r => r.takeWhile (fun c => c ≠ '/' && c ≠ '?' && c ≠ '#')
    | _ => []
  if (netloc.contains '[' && !netloc.contains ']')
      || (netloc.contains ']' && !netloc.contains '[') then none
  else some ⟨scheme, netloc⟩

/-- The hostname of a parsed URL, as computed by `urllib.parse`'s `hostname`
property: the part of the netloc after the last `@`, then either the bracketed
IPv6 host or the part before the first `:`, lowercased. -/
def hostnameOf (netloc : List Char) : List Char :=
  let hostinfo := (netloc.reverse.takeWhile (fun c => c ≠ '@')).reverse
  let host :=
    if hostinfo.contains '[' then
      ((hostinfo.dropWhile (fun c => c ≠ '[')).drop 1).takeWhile (fun c => c ≠ ']')
    else hostinfo.takeWhile (fun c => c ≠ ':')
  host.map pyLower

/-- The allowed schemes http and https (`ALLOWED_URL_SCHEMES`). -/
def allowedUrlSchemes : List (List Char) := ["http".toList, "https".toList]

/-- The `localhost_patterns` blocklist from `validate_job_url`. -/
def localhostPatterns : List (List Char) :=
  ["localhost".toList, "127.0.0.1".toList, "0.0.0.0".toList, "::1".toList,
   "169.254.".toList, "10.".toList, "192.168.".toList]

/-- The distinct `ValueError`s `validate_job_url` can raise, named after the
spec's error taxonomy. -/
inductive UrlError where
  | emptyUrl
  | invalidUrlFormat
  | invalidScheme
  | missingHostname
  | ssrfBlocked
deriving DecidableEq, Repr

/-- Shallow embedding of `SecurityValidator.validate_job_url`:
reject empty input, strip, parse, check the scheme, require a netloc, and
block the URL if any `localhost_patterns` entry occurs as a substring
(Python `in`) of the lowercased netloc. -/
def validateJobUrl (url : List Char) : Except UrlError Bool :=
  if url = [] then .error .emptyUrl
  else
    match parseUrl (pyStrip url) with
    | none => .error .invalidUrlFormat
    | some parsed =>
      if ¬ (parsed.scheme ∈ allowedUrlSchemes) then .error .invalidScheme
      else if parsed.netloc = [] then .error .missingHostname
      else
        let hostname := parsed.netloc.map pyLower
        if localhostPatterns.any (fun p => isSubstringOf p hostname) then
          .error .ssrfBlocked
        else .ok true

/- ### Header-field sanitization (`EmailSender._sanitize_email_field`) -/

/-- The list `dangerous_chars = ['\n', '\r', '\0', '\x0b', '\x0c']` from
`_sanitize_email_field` (`Char.ofNat 0/11/12` are NUL, vertical tab and form
feed). -/
def dangerousFieldChars : List Char :=
  ['\n', '\r', Char.ofNat 0, Char.ofNat 11, Char.ofNat 12]

/-- Python `text.replace(c, ' ')` for a single character `c`. -/
def replaceCharBySpace (c : Char) (s : List Char) : List Char :=
  s.map (fun x => if x = c then ' ' else x)

/-- The `for char in dangerous_chars: sanitized = sanitized.replace(char, ' ')`
loop. -/
def removeDangerousFieldChars (s : List Char) : List Char :=
  dangerousFieldChars.foldl (fun acc c => replaceCharBySpace c acc) s

/-- One pass of Python `sanitized.replace('  ', ' ')`: left-to-right,
non-overlapping, scanning resumes after each replacement. -/
def replaceDoubleSpace : List Char → List Char
  | [] => []
  | [c] => [c]
  | a :: b :: rest =>
      if a = ' ' ∧ b = ' ' then ' ' :: replaceDoubleSpace rest
      else a :: replaceDoubleSpace (b :: rest)

/-- Python `'  ' in sanitized`. -/
def hasDoubleSpace : List Char → Bool
  | [] => false
  | [_] => false
  | a :: b :: rest => (a = ' ' && b = ' ') || hasDoubleSpace (b :: rest)

/-- The body of the `while '  ' in sanitized` loop, with a fuel bound on the
number of iterations. By `replaceDoubleSpace_length_lt` every iteration
strictly shortens the string, so `s.length` iterations always suffice and the
`fuel = 0` case is reached only with `hasDoubleSpace s = false` (where the
loop would stop anyway). -/
def collapseSpacesAux : Nat → List Char → List Char
  | 0, s => s
  | fuel + 1, s =>
      if hasDoubleSpace s then collapseSpacesAux fuel (replaceDoubleSpace s)
      else s

/-- The `while '  ' in sanitized: sanitized = sanitized.replace('  ', ' ')`
loop. -/
def collapseSpaces (s : List Char) : List Char :=
  collapseSpacesAux s.length s

/-- Shallow embedding of `EmailSender._sanitize_email_field`: empty input
yields the empty string; otherwise replace each dangerous character with a
space, collapse consecutive spaces, and strip. -/
def sanitizeEmailField (text : List Char) : List Char :=
  if text = [] then []
  else pyStrip (collapseSpaces (removeDangerousFieldChars text))

/- ### LLM retry loop (`LoggerChatModel.__call__`) -/

/-- The observable outcome of one call to `self.llm.invoke(messages)` (and the
subsequent parsing/logging inside the same `try` block): a successful reply,
an `httpx.HTTPStatusError` with its status code and optional numeric
`retry-after` (seconds) / `retry-after-ms` (milliseconds) headers, a
network/connection/timeout error, a `ValueError`, or any other exception. -/
inductive CallResult where
  | success (reply : String)
  | httpError (status : Nat) (retryAfter : Option Nat) (retryAfterMs : Option Nat)
  | networkError
  | valueError
  | otherError
deriving DecidableEq, Repr

/-- The distinct exceptions `LoggerChatModel.__call__` can raise, each carrying
the retry count reported in its message where the message reports one. -/
inductive InvokeError where
  | rateLimitExceeded (retries : Nat)
  | serverError (status : Nat) (retries : Nat)
  | clientError (status : Nat)
  | connectionFailed (retries : Nat)
  | valueErrorRaised
  | unexpectedFailed (retries : Nat)
  | exhausted (retries : Nat)
deriving DecidableEq, Repr

/-- The observable trace of one `__call__` invocation: the returned reply or
raised exception, the number of `self.llm.invoke` calls made, and the
durations (in milliseconds) passed to `time.sleep`, in order. -/
structure InvokeResult where
  result : Except InvokeError String
  calls : Nat
  sleeps : List Nat
deriving DecidableEq, Repr

/-- The `while retry_count < max_retries` loop of `LoggerChatModel.__call__`.
The backend is a function from the 0-based call index to that call's outcome.
`fuel` bounds the number of loop iterations for structural recursion; since
every iteration that does not return increments `retry_count`, `fuel =
maxRetries` iterations always suffice, and the `fuel = 0` case coincides with
the loop's `# Should never reach here` fall-through. Sleeps are recorded in
milliseconds (`retry-after` seconds × 1000; `retry-after-ms` as given; backoff
seconds × 1000). -/
def invokeLoop (backend : Nat → CallResult) (maxRetries : Nat) :
    Nat → Nat → Nat → List Nat → InvokeResult
  | 0, _, calls, sleeps => ⟨.error (.exhausted maxRetries), calls, sleeps⟩
  | fuel + 1, retryCount, calls, sleeps =>
    if retryCount < maxRetries then
      match backend calls with
      | .success reply => ⟨.ok reply, calls + 1, sleeps⟩
      | .httpError status ra ram =>
          let rc := retryCount + 1
          if status = 429 then
            let w := match ra, ram with
              | some s, _ => 1000 * s
              | none, some ms => ms
              | none, none => 30000
            if rc ≥ maxRetries then
              ⟨.error (.rateLimitExceeded maxRetries), calls + 1, sleeps ++ [w]⟩
            else invokeLoop backend maxRetries fuel rc (calls + 1) (sleeps ++ [w])
          else if status ≥ 500 then
            let w := 1000 * min (2 ^ rc) 60
            if rc ≥ maxRetries then
              ⟨.error (.serverError status maxRetries), calls + 1, sleeps ++ [w]⟩
            else invokeLoop backend maxRetries fuel rc (calls + 1) (sleeps ++ [w])
          else ⟨.error (.clientError status), calls + 1, sleeps⟩
      | .networkError =>
          let rc := retryCount + 1
          let w := 1000 * min (2 ^ rc) 60
          if rc ≥ maxRetries then
            ⟨.error (.connectionFailed maxRetries), calls + 1, sleeps ++ [w]⟩
          else invokeLoop backend maxRetries fuel rc (calls + 1) (sleeps ++ [w])
      | .valueError => ⟨.error .valueErrorRaised, calls + 1, sleeps⟩
      | .otherError =>
          let rc := retryCount + 1
          if rc ≥ maxRetries then
            ⟨.error (.unexpectedFailed maxRetries), calls + 1, sleeps⟩
          else
            let w := 1000 * min (2 ^ rc) 60
            invokeLoop backend maxRetries fuel rc (calls + 1) (sleeps ++ [w])
    else ⟨.error (.exhausted maxRetries), calls, sleeps⟩

/-- The entry point `LoggerChatModel.__call__` with its hard-coded `max_retries = 3`, starting
from `retry_count = 0` with no calls made and no sleeps performed. -/
def loggerChatModelCall (backend : Nat → CallResult) : InvokeResult :=
  invokeLoop backend 3 3 0 0 []

/- ### Helper lemmas about `replaceDoubleSpace` -/

/-- One replacement pass never lengthens the string. -/
theorem replaceDoubleSpace_length_le :
    ∀ s : List Char, (replaceDoubleSpace s).length ≤ s.length
  | [] => by simp [replaceDoubleSpace]
  | [c] => by simp [replaceDoubleSpace]
  | a :: b :: rest => by
      by_cases h : a = ' ' ∧ b = ' '
      · have := replaceDoubleSpace_length_le rest
        simp only [replaceDoubleSpace, if_pos h, List.length_cons]
        omega
      · have := replaceDoubleSpace_length_le (b :: rest)
        simp only [replaceDoubleSpace, if_neg h, List.length_cons] at this ⊢
        omega

/-- When a double space is present, one replacement pass strictly shortens the
string, so `s.length` iterations of fuel always suffice in
`collapseSpacesAux`. -/
theorem replaceDoubleSpace_length_lt :
    ∀ s : List Char, hasDoubleSpace s = true →
      (replaceDoubleSpace s).length < s.length
  | a :: b :: rest, hs => by
      by_cases h : a = ' ' ∧ b = ' '
      · have := replaceDoubleSpace_length_le rest
        simp only [replaceDoubleSpace, if_pos h, List.length_cons]
        omega
      · have hs' : hasDoubleSpace (b :: rest) = true := by
          revert hs
          simp only [hasDoubleSpace, Bool.or_eq_true, Bool.and_eq_true,
            decide_eq_true_eq]
          intro hs
          exact hs.resolve_left h
        have := replaceDoubleSpace_length_lt (b :: rest) hs'
        simp only [replaceDoubleSpace, if_neg h, List.length_cons] at this ⊢
        omega
  | [], hs => by simp [hasDoubleSpace] at hs
  | [c], hs => by simp [hasDoubleSpace] at hs

/- ### Helper lemmas about `pyStrip` and `isSubstringOf` -/

theorem dropWhile_eq_self_of_head? {p : Char → Bool} {l : List Char}
    (h : ∀ c, l.head? = some c → p c = false) : l.dropWhile p = l := by
  cases l with
  | nil => rfl
  | cons a t =>
      have := h a rfl
      simp [List.dropWhile_cons, this]

theorem getLast?_of_suffix {l₁ l₂ : List Char} (h : l₁ <:+ l₂) (hne : l₁ ≠ []) :
    l₂.getLast? = l₁.getLast? := by
  obtain ⟨t, rfl⟩ := h
  rw [List.getLast?_append]
  cases hl : l₁.getLast? with
  | none => exact absurd (List.getLast?_eq_none_iff.mp hl) hne
  | some c => rfl

/-- The last character of a stripped string is not whitespace. -/
theorem pyStrip_getLast?_not_space (s : List Char) :
    ∀ c, (pyStrip s).getLast? = some c → pyIsSpace c = false := by
  intro c hc
  unfold pyStrip at hc
  rw [List.getLast?_reverse] at hc
  have h := List.head?_dropWhile_not pyIsSpace (s.dropWhile pyIsSpace).reverse
  rw [hc] at h
  exact h

/-- The first character of a stripped string is not whitespace. -/
theorem pyStrip_head?_not_space (s : List Char) :
    ∀ c, (pyStrip s).head? = some c → pyIsSpace c = false := by
  intro c hc
  unfold pyStrip at hc
  rw [List.head?_reverse] at hc
  have hwne : (s.dropWhile pyIsSpace).reverse.dropWhile pyIsSpace ≠ [] := by
    intro h
    rw [h] at hc
    simp at hc
  have hsuf : (s.dropWhile pyIsSpace).reverse.dropWhile pyIsSpace <:+
      (s.dropWhile pyIsSpace).reverse := List.dropWhile_suffix _
  have h2 : (s.dropWhile pyIsSpace).reverse.getLast? = some c := by
    rw [getLast?_of_suffix hsuf hwne]
    exact hc
  rw [List.getLast?_reverse] at h2
  have h3 := List.head?_dropWhile_not pyIsSpace s
  rw [h2] at h3
  exact h3

theorem pyStrip_idem (s : List Char) : pyStrip (pyStrip s) = pyStrip s := by
  have h1 : (pyStrip s).dropWhile pyIsSpace = pyStrip s :=
    dropWhile_eq_self_of_head? (pyStrip_head?_not_space s)
  conv_lhs => rw [pyStrip]
  rw [h1]
  have h2 : (pyStrip s).reverse.dropWhile pyIsSpace = (pyStrip s).reverse := by
    apply dropWhile_eq_self_of_head?
    intro c hc
    rw [List.head?_reverse] at hc
    exact pyStrip_getLast?_not_space s c hc
  rw [h2, List.reverse_reverse]

/-- Stripping yields a contiguous piece of the original string. -/
theorem pyStrip_isInfix (s : List Char) : pyStrip s <:+: s := by
  unfold pyStrip
  have h1 : s.dropWhile pyIsSpace <:+ s := List.dropWhile_suffix _
  have h2 : (s.dropWhile pyIsSpace).reverse.dropWhile pyIsSpace <:+
      (s.dropWhile pyIsSpace).reverse := List.dropWhile_suffix _
  have h3 := List.reverse_prefix.mpr h2
  rw [List.reverse_reverse] at h3
  exact h3.isInfix.trans h1.isInfix

/-- Correctness of `isSubstringOf`: it decides Python's substring relation `pat in l`. -/
theorem isSubstringOf_iff (pat l : List Char) :
    isSubstringOf pat l = true ↔ pat <:+: l := by
  induction l with
  | nil =>
      simp [isSubstringOf, List.isEmpty_iff]
  | cons a t ih =>
      simp [isSubstringOf, List.infix_cons_iff, ih, List.isPrefixOf_iff_prefix]

/-- The hostname computed by `hostnameOf` occurs contiguously inside the
lowercased netloc, which is what `validate_job_url` scans. -/
theorem hostnameOf_isInfix (netloc : List Char) :
    hostnameOf netloc <:+: netloc.map pyLower := by
  unfold hostnameOf
  have hpre : netloc.reverse.takeWhile (fun c => c ≠ '@') <+: netloc.reverse :=
    List.takeWhile_prefix _
  have hsuf : (netloc.reverse.takeWhile (fun c => c ≠ '@')).reverse <:+ netloc := by
    have h := List.reverse_suffix.mpr hpre
    rwa [List.reverse_reverse] at h
  by_cases hbr : (netloc.reverse.takeWhile (fun c => c ≠ '@')).reverse.contains '['
  · simp only [hbr, if_true]
    refine List.IsInfix.map pyLower ?_
    refine ( List.takeWhile_prefix _).isInfix.trans ?_
    refine ((List.drop_suffix _ _).isInfix.trans
      (List.dropWhile_suffix _).isInfix).trans hsuf.isInfix
  · simp only [hbr, if_false]
    exact List.IsInfix.map pyLower
      (( List.takeWhile_prefix _).isInfix.trans hsuf.isInfix)

/- ### Claim theorems: URL validation -/

/-- C1: for every URL string whose parsed scheme is `http` or `https` and whose
hostname is equal to, or prefixed by, one of the blocklist patterns
(`localhost`, `127.0.0.1`, `0.0.0.0`, `::1`, `169.254.`, `10.`, `192.168.`),
`validate_job_url` raises the SSRF-blocked error rather than returning
normally. -/
theorem validate_job_url_blocks_prefixed_hosts
    (url : List Char) (parts : UrlParts)
    (hparse : parseUrl (pyStrip url) = some parts)
    (hscheme : parts.scheme ∈ allowedUrlSchemes)
    (hpat : ∃ p ∈ localhostPatterns, p <+: hostnameOf parts.netloc) :
    validateJobUrl url = .error .ssrfBlocked := by
  obtain ⟨p, hpmem, hppre⟩ := hpat
  have hpne : p ≠ [] := by
    have h : ∀ q ∈ localhostPatterns, q ≠ [] := by decide
    exact h p hpmem
  have hnet : parts.netloc ≠ [] := by
    intro h
    rw [h] at hppre
    have he : hostnameOf [] = [] := rfl
    rw [he] at hppre
    exact hpne ( List.prefix_nil.mp hppre)
  have hurl : url ≠ [] := by
    intro h
    subst h
    have he : parseUrl (pyStrip []) = some ⟨[], []⟩ := rfl
    rw [he] at hparse
    injection hparse with h2
    rw [← h2] at hnet
    exact hnet rfl
  have hinfix : p <:+: parts.netloc.map pyLower :=
    hppre.isInfix.trans (hostnameOf_isInfix parts.netloc)
  have hany : localhostPatterns.any
      (fun q => isSubstringOf q (parts.netloc.map pyLower)) = true := by
    rw [List.any_eq_true]
    exact ⟨p, hpmem, (isSubstringOf_iff _ _).mpr hinfix⟩
  simp [validateJobUrl, hurl, hparse, hscheme, hnet, hany]

/-- Witness for C1 at the concrete URL `http://10.0.0.5/`, whose hostname is
prefixed by the pattern `10.`. -/
theorem validate_job_url_blocks_prefixed_hosts_witness :
    validateJobUrl "http://10.0.0.5/".toList = .error .ssrfBlocked :=
  validate_job_url_blocks_prefixed_hosts _ ⟨"http".toList, "10.0.0.5".toList⟩
    (by decide) (by decide) ⟨"10.".toList, by decide, by decide⟩

/-- C7 counterexample: the hostname `notlocalhost10.com` merely contains `10.`
(and `localhost`) as an inner substring, yet `validate_job_url` DOES raise the
SSRF-blocked error for it, refuting the claim that matching is on distinct
prefixes. -/
theorem inner_substring_host_blocked_cex :
    validateJobUrl "http://notlocalhost10.com".toList = .error .ssrfBlocked := by
  decide

/-- C7 amended: for a URL with an allowed scheme and a non-empty netloc,
`validate_job_url` raises the SSRF-blocked error exactly when some blocklist
pattern occurs as a substring (anywhere, not only as a prefix) of the
lowercased netloc. -/
theorem ssrf_check_is_substring_match
    (url : List Char) (parts : UrlParts)
    (hparse : parseUrl (pyStrip url) = some parts)
    (hscheme : parts.scheme ∈ allowedUrlSchemes)
    (hnet : parts.netloc ≠ []) :
    validateJobUrl url = .error .ssrfBlocked ↔
      ∃ p ∈ localhostPatterns, p <:+: parts.netloc.map pyLower := by
  have hurl : url ≠ [] := by
    intro h
    subst h
    have he : parseUrl (pyStrip []) = some ⟨[], []⟩ := rfl
    rw [he] at hparse
    injection hparse with h2
    rw [← h2] at hnet
    exact hnet rfl
  by_cases hany : localhostPatterns.any
      (fun q => isSubstringOf q (parts.netloc.map pyLower)) = true
  · have hex := List.any_eq_true.mp hany
    obtain ⟨p, hpmem, hsub⟩ := hex
    refine iff_of_true ?_ ⟨p, hpmem, (isSubstringOf_iff _ _).mp hsub⟩
    simp [validateJobUrl, hurl, hparse, hscheme, hnet, hany]
  · refine iff_of_false ?_ ?_
    · simp [validateJobUrl, hurl, hparse, hscheme, hnet, hany]
    · rintro ⟨p, hpmem, hinf⟩
      exact hany (List.any_eq_true.mpr
        ⟨p, hpmem, (isSubstringOf_iff _ _).mpr hinf⟩)

/-- Witness for C7's amended claim at `http://notlocalhost10.com`: the pattern
`10.` occurs as an inner substring of the hostname, and the URL is blocked. -/
theorem ssrf_check_is_substring_match_witness :
    validateJobUrl "http://notlocalhost10.com".toList = .error .ssrfBlocked :=
  (ssrf_check_is_substring_match _ ⟨"http".toList, "notlocalhost10.com".toList⟩
    (by decide) (by decide) (by decide)).mpr
    ⟨"10.".toList, by decide, (isSubstringOf_iff _ _).mp (by decide)⟩

/- ### Claim theorems: email validation -/

/-- Every character of a string matching the domain tail of `EMAIL_REGEX`
belongs to the regex's character classes. -/
theorem domainMatch_chars {r : List Char} (h : domainMatch r = true) :
    ∀ c ∈ r, isDomainChar c = true ∨ c = '.' ∨ c.isAlpha = true := by
  intro c hc
  unfold domainMatch at h
  split at h
  case h_2 => exact absurd h (by simp)
  case h_1 drev heq =>
    simp only [Bool.and_eq_true, List.all_eq_true] at h
    have hdecomp : r.reverse =
        r.reverse.takeWhile (fun c => c ≠ '.') ++ ('.' :: drev) := by
      conv_lhs => rw [← List.takeWhile_append_dropWhile
        (p := fun c => c ≠ '.') (l := r.reverse)]
      rw [heq]
    have hc' : c ∈ r.reverse := List.mem_reverse.mpr hc
    rw [hdecomp] at hc'
    rcases List.mem_append.mp hc' with h1 | h2
    · exact Or.inr (Or.inr (h.2 c h1))
    · rcases List.mem_cons.mp h2 with rfl | h3
      · exact Or.inr (Or.inl rfl)
      · exact Or.inl (h.1.1.2 c h3)

/-- Every character of a string fully matching `EMAIL_REGEX` belongs to the
regex's character classes (or is the literal `@` or `.`). -/
theorem emailCoreMatch_chars {s : List Char} (h : emailCoreMatch s = true) :
    ∀ c ∈ s, isLocalChar c = true ∨ c = '@' ∨ isDomainChar c = true ∨
      c = '.' ∨ c.isAlpha = true := by
  intro c hc
  unfold emailCoreMatch at h
  split at h
  case h_2 => exact absurd h (by simp)
  case h_1 r heq =>
    simp only [Bool.and_eq_true, List.all_eq_true] at h
    have hdecomp : s = s.takeWhile (fun c => c ≠ '@') ++ ('@' :: r) := by
      conv_lhs => rw [← List.takeWhile_append_dropWhile
        (p := fun c => c ≠ '@') (l := s)]
      rw [heq]
    rw [hdecomp] at hc
    rcases List.mem_append.mp hc with h1 | h2
    · exact Or.inl (h.1.2 c h1)
    · rcases List.mem_cons.mp h2 with rfl | h3
      · exact Or.inr (Or.inl rfl)
      · rcases domainMatch_chars h.2 c h3 with hd | hd | hd
        · exact Or.inr (Or.inr (Or.inl hd))
        · exact Or.inr (Or.inr (Or.inr (Or.inl hd)))
        · exact Or.inr (Or.inr (Or.inr (Or.inr hd)))

/-- On an already-stripped string the trailing-newline provision of Python's
`$` anchor cannot fire, so the regex match is just the core match. -/
theorem emailRegexMatch_pyStrip (s : List Char) :
    emailRegexMatch (pyStrip s) = emailCoreMatch (pyStrip s) := by
  unfold emailRegexMatch
  cases hl : (pyStrip s).getLast? with
  | none => simp
  | some c =>
      have hns := pyStrip_getLast?_not_space s c hl
      have hne : c ≠ '\n' := by
        intro h
        subst h
        simp [pyIsSpace] at hns
      simp [hl, hne]

/-- None of the dangerous command-injection characters belongs to any
character class of `EMAIL_REGEX`. -/
theorem dangerous_not_in_classes :
    ∀ c ∈ dangerousEmailChars, isLocalChar c = false ∧ c ≠ '@' ∧
      isDomainChar c = false ∧ c ≠ '.' ∧ c.isAlpha = false := by
  decide

/-- A stripped string that matches `EMAIL_REGEX` contains no dangerous
character. -/
theorem regex_match_excludes_dangerous {s : List Char}
    (h : emailCoreMatch (pyStrip s) = true) :
    ∀ c ∈ dangerousEmailChars, c ∉ pyStrip s := by
  intro c hcd hmem
  have hclass := emailCoreMatch_chars h c hmem
  have hnot := dangerous_not_in_classes c hcd
  rcases hclass with h1 | h1 | h1 | h1 | h1
  · rw [hnot.1] at h1; exact absurd h1 (by simp)
  · exact hnot.2.1 h1
  · rw [hnot.2.2.1] at h1; exact absurd h1 (by simp)
  · exact hnot.2.2.2.1 h1
  · rw [hnot.2.2.2.2] at h1; exact absurd h1 (by simp)

/-- C9 counterexample: the input `user@example.com\n` contains the dangerous
character `\n`, yet `validate_email` accepts it (the newline sits in the
whitespace that `strip()` removes before the regex is applied), so it is not
"rejected earlier with the invalid-format error". -/
theorem trailing_newline_email_accepted_cex :
    ('\n' ∈ "user@example.com\n".toList) ∧
      validateEmail "user@example.com\n".toList = .ok true := by
  constructor
  · decide
  · decide

/-- C9 amended: the injection-character branch of `validate_email` is
unreachable — for every string input, the injection-character error is never
raised (any input reaching that check has matched `EMAIL_REGEX` on the
stripped string, whose character classes admit none of the dangerous
characters). -/
theorem injection_branch_unreachable (s : List Char) :
    injectionRaised (validateEmail s) = false := by
  unfold validateEmail
  by_cases hs : s = []
  · simp [hs, injectionRaised]
  · rw [if_neg hs]
    by_cases hm : emailRegexMatch (pyStrip s) = false
    · simp [hm, injectionRaised]
    · rw [if_neg hm]
      have hcore : emailCoreMatch (pyStrip s) = true := by
        rw [← emailRegexMatch_pyStrip]
        exact eq_true_of_ne_false hm
      have hnone : ¬ ∃ c ∈ dangerousEmailChars, c ∈ pyStrip s := by
        rintro ⟨c, hcd, hmem⟩
        exact regex_match_excludes_dangerous hcore c hcd hmem
      by_cases hlen : (pyStrip s).length > 320
      · simp [hlen, injectionRaised]
      · simp [hlen, hnone, injectionRaised]

/-- C6 counterexample: `validate_email("user@example.com\nBcc: x@evil.com")`
raises the invalid-format error, not the injection-character error. -/
theorem injection_email_raises_format_error_cex :
    validateEmail "user@example.com\nBcc: x@evil.com".toList
        = .error .invalidFormat ∧
      (Except.error .invalidFormat : Except EmailError Bool)
        ≠ .error .injectionChar := by
  constructor
  · decide
  · decide

/-- C6 amended: every string whose stripped form contains a dangerous
character is rejected by `validate_email` with the invalid-format error (the
anchored regex rejects it before the injection-character check is reached). -/
theorem dangerous_chars_rejected_as_invalid_format (s : List Char)
    (h : ∃ c ∈ dangerousEmailChars, c ∈ pyStrip s) :
    validateEmail s = .error .invalidFormat := by
  obtain ⟨c, hcd, hmem⟩ := h
  have hs : s ≠ [] := by
    intro hnil
    subst hnil
    simp [pyStrip] at hmem
  have hm : emailRegexMatch (pyStrip s) = false := by
    rw [emailRegexMatch_pyStrip]
    by_contra hne
    exact regex_match_excludes_dangerous (eq_true_of_ne_false hne) c hcd hmem
  unfold validateEmail
  rw [if_neg hs, if_pos hm]

/-- Witness for C6's amended claim at the concrete header-injection input. -/
theorem dangerous_chars_rejected_as_invalid_format_witness :
    validateEmail "user@example.com\nBcc: x@evil.com".toList
      = .error .invalidFormat :=
  dangerous_chars_rejected_as_invalid_format _ ⟨'\n', by decide, by decide⟩

/- ### Claim theorems: retry loop -/

/-- C2: when the first backend call fails with HTTP 429 carrying
`retry-after: 2` (whatever `retry-after-ms` says) and the second call
succeeds, the invoker sleeps exactly once for 2 seconds (2000 ms) — the
header value, preferred over `retry-after-ms` and over the 30-second
default — makes exactly two backend calls, and returns the second call's
success value. -/
theorem retry_429_honors_retry_after_header
    (backend : Nat → CallResult) (ram : Option Nat) (v : String)
    (h0 : backend 0 = .httpError 429 (some 2) ram)
    (h1 : backend 1 = .success v) :
    loggerChatModelCall backend = ⟨.ok v, 2, [2000]⟩ := by
  simp [loggerChatModelCall, invokeLoop, h0, h1]

/-- Witness for C2 with a concrete backend that also supplies a conflicting
`retry-after-ms: 5000` header. -/
theorem retry_429_honors_retry_after_header_witness :
    loggerChatModelCall (fun n => match n with
      | 0 => CallResult.httpError 429 (some 2) (some 5000)
      | _ + 1 => CallResult.success "ok") = ⟨.ok "ok", 2, [2000]⟩ :=
  retry_429_honors_retry_after_header _ (some 5000) "ok" rfl rfl

/-- C3: when every backend call fails with a network/connection error, the
invoker makes exactly 3 calls, sleeping `min(2^1,60)` = 2s between the first
and second attempt and `min(2^2,60)` = 4s between the second and third (plus a
final 8s backoff), then raises the permanent connection failure naming the 3
attempts; it never returns a result. -/
theorem retry_connection_error_exhausts_three_attempts
    (backend : Nat → CallResult)
    (h : ∀ n, backend n = .networkError) :
    loggerChatModelCall backend =
      ⟨.error (.connectionFailed 3), 3, [2000, 4000, 8000]⟩ := by
  simp [loggerChatModelCall, invokeLoop, h]

/-- Witness for C3 with the constant network-error backend. -/
theorem retry_connection_error_exhausts_three_attempts_witness :
    loggerChatModelCall (fun _ => CallResult.networkError) =
      ⟨.error (.connectionFailed 3), 3, [2000, 4000, 8000]⟩ :=
  retry_connection_error_exhausts_three_attempts _ (fun _ => rfl)

/-- C4: when the first backend call fails with an HTTP 4xx status other than
429, the invoker raises the permanent client error immediately: exactly one
backend call, no sleep. -/
theorem client_error_fails_immediately
    (backend : Nat → CallResult) (status : Nat) (ra ram : Option Nat)
    (h0 : backend 0 = .httpError status ra ram)
    (hlo : 400 ≤ status) (hhi : status ≤ 499) (hne : status ≠ 429) :
    loggerChatModelCall backend = ⟨.error (.clientError status), 1, []⟩ := by
  simp [loggerChatModelCall, invokeLoop, h0, hne]
  omega

/-- Witness for C4 at HTTP 403. -/
theorem client_error_fails_immediately_witness :
    loggerChatModelCall (fun _ => CallResult.httpError 403 none none) =
      ⟨.error (.clientError 403), 1, []⟩ :=
  client_error_fails_immediately _ 403 none none rfl
    (by decide) (by decide) (by decide)

/-- C5 counterexample: a backend that always raises a `ValueError` is NOT
retried — the invoker re-raises after a single call with no sleep, refuting
the claim that every non-HTTP, non-network exception is retried up to the
attempt budget. -/
theorem value_error_not_retried_cex :
    loggerChatModelCall (fun _ => CallResult.valueError) =
      ⟨.error .valueErrorRaised, 1, []⟩ := by
  decide

/-- C5 amended: every backend exception that is not an HTTP status error, not
a network/connection/timeout error and not a `ValueError` is retried up to the
attempt budget with capped exponential backoff `min(2^attempt, 60)` seconds
between attempts, and after exhausting the budget the invoker raises an error
wrapped with the attempt count; a `ValueError` is instead re-raised
immediately without retry (see the counterexample). -/
theorem other_exceptions_retried_to_budget
    (backend : Nat → CallResult)
    (h : ∀ n, backend n = .otherError) :
    loggerChatModelCall backend =
      ⟨.error (.unexpectedFailed 3), 3, [2000, 4000]⟩ := by
  simp [loggerChatModelCall, invokeLoop, h]

/-- Witness for C5's amended claim with the constant unexpected-error
backend. -/
theorem other_exceptions_retried_to_budget_witness :
    loggerChatModelCall (fun _ => CallResult.otherError) =
      ⟨.error (.unexpectedFailed 3), 3, [2000, 4000]⟩ :=
  other_exceptions_retried_to_budget _ (fun _ => rfl)

/-- C10 counterexample: with every attempt failing on a retryable error of the
catch-all "unexpected exception" class, the invoker sleeps only twice
(`max_attempts - 1` sleeps), not `max_attempts` times, because that branch
checks exhaustion before sleeping. -/
theorem unexpected_error_sleeps_twice_cex :
    (loggerChatModelCall (fun _ => CallResult.otherError)).sleeps.length = 2 ∧
      (loggerChatModelCall (fun _ => CallResult.otherError)).result =
        .error (.unexpectedFailed 3) := by
  constructor
  · decide
  · decide

/-- C10 amended: how many backoff sleeps a fully-failing run performs depends
on the error class. For persistent network/connection errors the invoker
sleeps after the final failed attempt too — 3 sleeps of `min(2^1,60)`,
`min(2^2,60)`, `min(2^3,60)` seconds; for persistent 429s it sleeps the
header-derived delay (or the 30s default) three times; but for persistent
unexpected exceptions it sleeps only between attempts — 2 sleeps. -/
theorem final_attempt_sleep_by_error_class :
    (∀ backend : Nat → CallResult, (∀ n, backend n = .networkError) →
      loggerChatModelCall backend =
        ⟨.error (.connectionFailed 3), 3, [2000, 4000, 8000]⟩) ∧
    (∀ (backend : Nat → CallResult) (k : Nat),
      (∀ n, backend n = .httpError 429 (some k) none) →
      loggerChatModelCall backend =
        ⟨.error (.rateLimitExceeded 3), 3, [1000 * k, 1000 * k, 1000 * k]⟩) ∧
    (∀ backend : Nat → CallResult, (∀ n, backend n = .httpError 429 none none) →
      loggerChatModelCall backend =
        ⟨.error (.rateLimitExceeded 3), 3, [30000, 30000, 30000]⟩) ∧
    (∀ backend : Nat → CallResult, (∀ n, backend n = .otherError) →
      loggerChatModelCall backend =
        ⟨.error (.unexpectedFailed 3), 3, [2000, 4000]⟩) := by
  refine ⟨?_, ?_, ?_, ?_⟩
  · intro backend h
    simp [loggerChatModelCall, invokeLoop, h]
  · intro backend k h
    simp [loggerChatModelCall, invokeLoop, h]
  · intro backend h
    simp [loggerChatModelCall, invokeLoop, h]
  · intro backend h
    simp [loggerChatModelCall, invokeLoop, h]

/-- Witness for C10's amended claim at concrete constant backends of each
error class. -/
theorem final_attempt_sleep_by_error_class_witness :
    loggerChatModelCall (fun _ => CallResult.networkError) =
      ⟨.error (.connectionFailed 3), 3, [2000, 4000, 8000]⟩ ∧
    loggerChatModelCall (fun _ => CallResult.httpError 429 (some 2) none) =
      ⟨.error (.rateLimitExceeded 3), 3, [2000, 2000, 2000]⟩ ∧
    loggerChatModelCall (fun _ => CallResult.httpError 429 none none) =
      ⟨.error (.rateLimitExceeded 3), 3, [30000, 30000, 30000]⟩ ∧
    loggerChatModelCall (fun _ => CallResult.otherError) =
      ⟨.error (.unexpectedFailed 3), 3, [2000, 4000]⟩ :=
  by
  refine ⟨final_attempt_sleep_by_error_class.1 _ (fun _ => rfl), ?_,
    final_attempt_sleep_by_error_class.2.2.1 _ (fun _ => rfl),
    final_attempt_sleep_by_error_class.2.2.2 _ (fun _ => rfl)⟩
  have h := final_attempt_sleep_by_error_class.2.1
    (fun _ => CallResult.httpError 429 (some 2) none) 2 (fun _ => rfl)
  simpa using h

/- ### Helper lemmas about the header-field sanitizer -/

theorem mem_replaceCharBySpace {x c : Char} {s : List Char}
    (h : x ∈ replaceCharBySpace c s) : x ∈ s ∨ x = ' ' := by
  unfold replaceCharBySpace at h
  obtain ⟨y, hy, hxy⟩ := List.mem_map.mp h
  by_cases hyc : y = c
  · rw [if_pos hyc] at hxy
    right
    exact hxy.symm
  · rw [if_neg hyc] at hxy
    left
    rwa [← hxy]

theorem not_mem_replaceCharBySpace_self {c : Char} (s : List Char)
    (h : c ≠ ' ') : c ∉ replaceCharBySpace c s := by
  intro hmem
  unfold replaceCharBySpace at hmem
  obtain ⟨y, _, hxy⟩ := List.mem_map.mp hmem
  by_cases hyc : y = c
  · rw [if_pos hyc] at hxy
    exact h hxy.symm
  · rw [if_neg hyc] at hxy
    exact hyc hxy

theorem replaceCharBySpace_eq_self {c : Char} {s : List Char}
    (h : c ∉ s) : replaceCharBySpace c s = s := by
  unfold replaceCharBySpace
  have hcongr : ∀ a ∈ s, (if a = c then ' ' else a) = id a := by
    intro a ha
    have hne : a ≠ c := by
      intro hac
      rw [hac] at ha
      exact h ha
    exact if_neg hne
  rw [List.map_congr_left hcongr, List.map_id]

theorem not_mem_foldl_replace {c : Char} (hc : c ≠ ' ') :
    ∀ (L : List Char) (t : List Char), c ∉ t →
      c ∉ L.foldl (fun a d => replaceCharBySpace d a) t
  | [], t, ht => ht
  | d :: L', t, ht => by
      apply not_mem_foldl_replace hc L'
      intro hmem
      rcases mem_replaceCharBySpace hmem with h | h
      · exact ht h
      · exact hc h

theorem not_mem_removeDangerous (s : List Char) :
    ∀ c ∈ dangerousFieldChars, c ∉ removeDangerousFieldChars s := by
  have key : ∀ (L : List Char), (∀ c ∈ L, c ≠ ' ') →
      ∀ (t : List Char), ∀ c ∈ L,
        c ∉ L.foldl (fun a d => replaceCharBySpace d a) t := by
    intro L
    induction L with
    | nil => intro _ t c hc; exact absurd hc (List.not_mem_nil c)
    | cons d L' ih =>
        intro hne t c hc
        rcases List.mem_cons.mp hc with rfl | hc'
        · exact not_mem_foldl_replace (hne c hc) L' _
            (not_mem_replaceCharBySpace_self t (hne c hc))
        · exact ih (fun x hx => hne x (List.mem_cons_of_mem d hx)) _ c hc'
  intro c hc
  exact key dangerousFieldChars (by decide) s c hc

theorem removeDangerous_eq_self {s : List Char}
    (h : ∀ c ∈ dangerousFieldChars, c ∉ s) :
    removeDangerousFieldChars s = s := by
  have key : ∀ (L : List Char) (t : List Char), (∀ c ∈ L, c ∉ t) →
      L.foldl (fun a d => replaceCharBySpace d a) t = t := by
    intro L
    induction L with
    | nil => intro t _; rfl
    | cons d L' ih =>
        intro t ht
        have hd : replaceCharBySpace d t = t :=
          replaceCharBySpace_eq_self (ht d (List.mem_cons_self d L'))
        simp only [List.foldl_cons, hd]
        exact ih t (fun c hc => ht c (List.mem_cons_of_mem d hc))
  exact key dangerousFieldChars s h

theorem mem_replaceDoubleSpace :
    ∀ {s : List Char} {x : Char}, x ∈ replaceDoubleSpace s → x ∈ s
  | [], x, h => h
  | [c], x, h => h
  | a :: b :: rest, x, h => by
      by_cases hab : a = ' ' ∧ b = ' '
      · rw [replaceDoubleSpace, if_pos hab] at h
        rcases List.mem_cons.mp h with rfl | h'
        · exact hab.1 ▸ List.mem_cons_self _ _
        · exact List.mem_cons_of_mem a
            (List.mem_cons_of_mem b (mem_replaceDoubleSpace h'))
      · rw [replaceDoubleSpace, if_neg hab] at h
        rcases List.mem_cons.mp h with rfl | h'
        · exact List.mem_cons_self _ _
        · exact List.mem_cons_of_mem a (mem_replaceDoubleSpace h')

theorem mem_collapseSpacesAux :
    ∀ (fuel : Nat) {s : List Char} {x : Char},
      x ∈ collapseSpacesAux fuel s → x ∈ s
  | 0, s, x, h => h
  | fuel + 1, s, x, h => by
      rw [collapseSpacesAux] at h
      by_cases hd : hasDoubleSpace s
      · rw [if_pos hd] at h
        exact mem_replaceDoubleSpace (mem_collapseSpacesAux fuel h)
      · rwa [if_neg hd] at h

theorem hasDouble_collapseSpacesAux :
    ∀ (fuel : Nat) (s : List Char), s.length ≤ fuel →
      hasDoubleSpace (collapseSpacesAux fuel s) = false
  | 0, s, hle => by
      have : s = [] := List.length_eq_zero.mp (Nat.le_zero.mp hle)
      subst this
      rfl
  | fuel + 1, s, hle => by
      rw [collapseSpacesAux]
      by_cases hd : hasDoubleSpace s
      · rw [if_pos hd]
        have hlt := replaceDoubleSpace_length_lt s hd
        exact hasDouble_collapseSpacesAux fuel _ (by omega)
      · rw [if_neg hd]
        exact Bool.not_eq_true _ ▸ Bool.of_not_eq_true hd

theorem hasDouble_collapseSpaces (s : List Char) :
    hasDoubleSpace (collapseSpaces s) = false :=
  hasDouble_collapseSpacesAux s.length s (Nat.le_refl _)

theorem collapseSpacesAux_eq_self {s : List Char}
    (h : hasDoubleSpace s = false) :
    ∀ fuel, collapseSpacesAux fuel s = s
  | 0 => rfl
  | fuel + 1 => by rw [collapseSpacesAux, h]; simp

theorem collapseSpaces_eq_self {s : List Char}
    (h : hasDoubleSpace s = false) : collapseSpaces s = s :=
  collapseSpacesAux_eq_self h s.length

/-- Characterization: `hasDoubleSpace` holds exactly when two consecutive
spaces occur. -/
theorem hasDoubleSpace_iff_isInfix :
    ∀ s : List Char, hasDoubleSpace s = true ↔ [' ', ' '] <:+: s
  | [] => by simp [hasDoubleSpace]
  | [c] => by
      simp only [hasDoubleSpace, List.infix_cons_iff, List.infix_nil]
      constructor
      · intro h; exact absurd h (by simp)
      · rintro (h | h)
        · have := h.length_le
          simp at this
        · exact absurd h (by simp)
  | a :: b :: t => by
      rw [hasDoubleSpace, List.infix_cons_iff]
      constructor
      · intro h
        rcases Bool.or_eq_true _ _ |>.mp h with h1 | h1
        · left
          have hab : a = ' ' ∧ b = ' ' := by
            simpa using h1
          rw [hab.1, hab.2]
          exact (List.cons_prefix_cons.mpr ⟨rfl,
            List.cons_prefix_cons.mpr ⟨rfl, List.nil_prefix⟩⟩)
        · right
          exact (hasDoubleSpace_iff_isInfix (b :: t)).mp h1
      · intro h
        rcases h with h1 | h1
        · rcases List.cons_prefix_cons.mp h1 with ⟨ha, h2⟩
          rcases List.cons_prefix_cons.mp h2 with ⟨hb, _⟩
          apply Bool.or_eq_true _ _ |>.mpr
          left
          simp [← ha, ← hb]
        · exact Bool.or_eq_true _ _ |>.mpr
            (Or.inr ((hasDoubleSpace_iff_isInfix (b :: t)).mpr h1))

theorem hasDouble_of_isInfix {l₁ l₂ : List Char} (h : l₁ <:+: l₂)
    (hd : hasDoubleSpace l₁ = true) : hasDoubleSpace l₂ = true :=
  (hasDoubleSpace_iff_isInfix l₂).mpr
    (((hasDoubleSpace_iff_isInfix l₁).mp hd).trans h)

/- ### Claim theorem: header-field sanitizer -/

theorem sanitize_no_dangerous (s : List Char) :
    ∀ c ∈ dangerousFieldChars, c ∉ sanitizeEmailField s := by
  intro c hc hmem
  unfold sanitizeEmailField at hmem
  by_cases hs : s = []
  · rw [if_pos hs] at hmem
    exact List.not_mem_nil c hmem
  · rw [if_neg hs] at hmem
    have h1 : c ∈ collapseSpaces (removeDangerousFieldChars s) :=
      (pyStrip_isInfix _).subset hmem
    have h2 : c ∈ removeDangerousFieldChars s := mem_collapseSpacesAux _ h1
    exact not_mem_removeDangerous s c hc h2

theorem sanitize_no_double (s : List Char) :
    hasDoubleSpace (sanitizeEmailField s) = false := by
  unfold sanitizeEmailField
  by_cases hs : s = []
  · rw [if_pos hs]
    rfl
  · rw [if_neg hs]
    have hinner := hasDouble_collapseSpaces (removeDangerousFieldChars s)
    by_contra hne
    have hd := eq_true_of_ne_false hne
    have := hasDouble_of_isInfix (pyStrip_isInfix _) hd
    rw [hinner] at this
    exact absurd this (by simp)

theorem sanitize_idem (s : List Char) :
    sanitizeEmailField (sanitizeEmailField s) = sanitizeEmailField s := by
  by_cases hy : sanitizeEmailField s = []
  · rw [hy]
    rfl
  · have hs : s ≠ [] := by
      intro h
      rw [h] at hy
      exact hy rfl
    conv_lhs => rw [sanitizeEmailField]
    rw [if_neg hy]
    rw [removeDangerous_eq_self (fun c hc => sanitize_no_dangerous s c hc)]
    rw [collapseSpaces_eq_self (sanitize_no_double s)]
    conv_lhs => rw [sanitizeEmailField, if_neg hs]
    rw [pyStrip_idem]
    rw [sanitizeEmailField, if_neg hs]

/-- C8: `_sanitize_email_field` is idempotent, its output contains none of
`\n`, `\r`, `\0`, `\x0b`, `\x0c` and no two consecutive spaces, and empty
input yields the empty string. -/
theorem sanitize_email_field_idempotent_and_clean :
    (∀ s : List Char,
      sanitizeEmailField (sanitizeEmailField s) = sanitizeEmailField s) ∧
    (∀ s : List Char, (sanitizeEmailField s).all
      (fun c => !(dangerousFieldChars.contains c)) = true) ∧
    (∀ s : List Char, hasDoubleSpace (sanitizeEmailField s) = false) ∧
    sanitizeEmailField [] = [] := by
  refine ⟨sanitize_idem, ?_, sanitize_no_double, rfl⟩
  intro s
  rw [List.all_eq_true]
  intro c hc
  have hnot : c ∉ dangerousFieldChars := by
    intro hcd
    exact sanitize_no_dangerous s c hcd hc
  simpa using hnot

end JobCraft
